import Mathlib

/-!
Verification of the trace-analysis tool: a shallow embedding of its two core
source files (the trace ingester / span-tree builder / renderer, and the
position normalizer) together with proofs about the embedded definitions.

Conventions used throughout the embedding:
* JavaScript numbers that hold microsecond timestamps, durations and byte
  offsets are modelled as `Int` (the tool only ever feeds integral values).
* The `minPercentage` option is a fraction and is modelled as `Rat`.
* JavaScript `undefined` is modelled with `Option`; the JS truthiness test
  `if (x)` on an optional number is `Option Int` being `some v` with `v ≠ 0`,
  and on an optional string it is `some s` with `s ≠ ""`.
* A JS runtime fault (dereferencing `undefined`) is modelled by returning
  `none` from the faulting function.
* `Array.prototype.sort` (stable since ES2019) is modelled with Mathlib's
  stable `List.insertionSort`.
-/

namespace TraceAnalyze

/-- Line/character pair, 1-based, as produced by the position normalizer. -/
abbrev LineChar := Nat × Nat

/-- Lexicographic order on line/character pairs. -/
def lcLE (a b : LineChar) : Prop :=
  a.1 < b.1 ∨ (a.1 = b.1 ∧ a.2 ≤ b.2)

instance : DecidableRel lcLE := by
  intro a b
  unfold lcLE
  infer_instance

theorem lcLE_refl (a : LineChar) : lcLE a a := Or.inr ⟨rfl, le_refl _⟩

theorem lcLE_trans {a b c : LineChar} (h1 : lcLE a b) (h2 : lcLE b c) : lcLE a c := by
  rcases h1 with h1 | ⟨h1e, h1c⟩ <;> rcases h2 with h2 | ⟨h2e, h2c⟩
  · exact Or.inl (h1.trans h2)
  · exact Or.inl (h2e ▸ h1)
  · exact Or.inl (h1e ▸ h2)
  · exact Or.inr ⟨h1e.trans h2e, h1c.trans h2c⟩

/-- The `args` payload of a trace event; only the keys the tool reads are
modelled (`path`, `pos`, `end`, `sourceId`, `targetId`).  The reserved word
`end` is rendered as `endPos`. -/
structure EventArgs where
  path : Option String := none
  pos : Option Int := none
  endPos : Option Int := none
  sourceId : Option Int := none
  targetId : Option Int := none
  deriving Repr, DecidableEq

/-- A trace event.  `ts` is already coerced to a number (the source applies
unary `+` to the textual timestamp); `dur` is present on `X` events. -/
structure Event where
  ph : String
  ts : Int
  dur : Option Int := none
  name : String := ""
  cat : String := ""
  args : Option EventArgs := none
  deriving Repr, DecidableEq

/-- A closed span as produced by `parse`: the originating event (the begin
event for `B`/`E` pairs, the sole event for `X`), and its time interval.
The reserved word `end` is rendered as `endT`.  (The source also carries an
always-empty `children` array at this stage; children are only attached
later by the tree builder.) -/
structure Span where
  event : Option Event := none
  start : Int
  endT : Int
  deriving Repr, DecidableEq

/-- State threaded through `parse`'s `onValue` handler.  `minTime` starts at
JavaScript `Infinity`, modelled as `none`; `maxTime` starts at `0`.
`unclosedStack` holds begin events, head = top of stack. -/
structure ParseState where
  minTime : Option Int := none
  maxTime : Int := 0
  unclosedStack : List Event := []
  spans : List Span := []
  deriving Repr, DecidableEq

/-- One `Math.min` step against a possibly-infinite running minimum
(`none` models the JS initial value `Infinity`). -/
def minOpt (m : Option Int) (x : Int) : Option Int :=
  match m with
  | none => some x
  | some v => some (min v x)

/-- The body of `parse`'s `onValue` handler for one top-level array element
(source part_000 lines 103-142).  Metadata (`M`) and instant (`i`/`I`)
events are dropped; `B` pushes onto the unclosed stack; `E` pops the stack
and closes a span; `X` closes a span directly; any other phase is logged
via a non-throwing `assert` and skipped.  An `E` event arriving with an
empty unclosed stack makes the source pop `undefined` and dereference its
`ts` field, a runtime fault, modelled as `none`.  (`+event.dur!` is coerced
with `dur` assumed present on `X` events per the trace format; the
embedding reads it with default `0`.) -/
def processEvent (minDuration : Int) (st : ParseState) (ev : Event) : Option ParseState :=
  if ev.ph = "M" then some st
  else if ev.ph = "i" ∨ ev.ph = "I" then some st
  else if ev.ph = "B" then some { st with unclosedStack := ev :: st.unclosedStack }
  else
    match (if ev.ph = "E" then
             match st.unclosedStack with
             | [] => none
             | beginEvent :: rest =>
               some (some ({ event := some beginEvent, start := beginEvent.ts, endT := ev.ts }, rest))
           else if ev.ph = "X" then
             some (some ({ event := some ev, start := ev.ts, endT := ev.ts + ev.dur.getD 0 }, st.unclosedStack))
           else
             some none) with
    | none => none
    | some none => some st
    | some (some (span, stack)) =>
      some { st with
        unclosedStack := stack
        minTime := minOpt st.minTime span.start
        maxTime := max st.maxTime span.endT
        spans := if minDuration ≤ span.endT - span.start then st.spans ++ [span] else st.spans }

/-- Folds `processEvent` over the delivered top-level events. -/
def parseEventsFrom (minDuration : Int) (st : ParseState) : List Event → Option ParseState
  | [] => some st
  | ev :: evs =>
    match processEvent minDuration st ev with
    | none => none
    | some st' => parseEventsFrom minDuration st' evs

/-- The `parse` function of the analyzer, restricted to its event handling:
the streaming JSON layer is abstracted into the list of top-level events it
delivers. -/
def parseEvents (minDuration : Int) (events : List Event) : Option ParseState :=
  parseEventsFrom minDuration { } events

/-- All spans that close during `parse`, in closing order and regardless of
duration.  This is the spec's notion of "every closed span": it repeats the
stack discipline of `processEvent` but performs no duration filtering and no
`minTime`/`maxTime` bookkeeping, so that `parseEvents` can be compared
against it. -/
def closedSpansFrom (stack : List Event) : List Event → Option (List Span)
  | [] => some []
  | ev :: evs =>
    if ev.ph = "M" then closedSpansFrom stack evs
    else if ev.ph = "i" ∨ ev.ph = "I" then closedSpansFrom stack evs
    else if ev.ph = "B" then closedSpansFrom (ev :: stack) evs
    else if ev.ph = "E" then
      match stack with
      | [] => none
      | beginEvent :: rest =>
        (closedSpansFrom rest evs).map
          (fun cs => { event := some beginEvent, start := beginEvent.ts, endT := ev.ts } :: cs)
    else if ev.ph = "X" then
      (closedSpansFrom stack evs).map
        (fun cs => { event := some ev, start := ev.ts, endT := ev.ts + ev.dur.getD 0 } :: cs)
    else closedSpansFrom stack evs

/-- The closed spans of a whole event stream. -/
def closedSpans (events : List Event) : Option (List Span) :=
  closedSpansFrom [] events

theorem parseEventsFrom_characterization (minDuration : Int) :
    ∀ (events : List Event) (st₀ st : ParseState),
      parseEventsFrom minDuration st₀ events = some st →
      ∃ cs, closedSpansFrom st₀.unclosedStack events = some cs ∧
        st.spans = st₀.spans ++ cs.filter (fun s => minDuration ≤ s.endT - s.start) ∧
        st.minTime = cs.foldl (fun m s => minOpt m s.start) st₀.minTime ∧
        st.maxTime = cs.foldl (fun m s => max m s.endT) st₀.maxTime := by
  intro events
  induction events with
  | nil =>
    intro st₀ st h
    simp only [parseEventsFrom, Option.some.injEq] at h
    exact ⟨[], rfl, by simp [← h]⟩
  | cons ev evs ih =>
    intro st₀ st h
    simp only [parseEventsFrom] at h
    rcases hp : processEvent minDuration st₀ ev with _ | st₁
    · rw [hp] at h; exact absurd h (by simp)
    rw [hp] at h
    simp only at h
    obtain ⟨cs, hcs, hsp, hmin, hmax⟩ := ih st₁ st h
    unfold processEvent at hp
    by_cases hM : ev.ph = "M"
    · rw [if_pos hM] at hp
      obtain rfl : st₀ = st₁ := by injection hp
      exact ⟨cs, by simpa [closedSpansFrom, hM] using hcs, hsp, hmin, hmax⟩
    rw [if_neg hM] at hp
    by_cases hI : ev.ph = "i" ∨ ev.ph = "I"
    · rw [if_pos hI] at hp
      obtain rfl : st₀ = st₁ := by injection hp
      refine ⟨cs, ?_, hsp, hmin, hmax⟩
      unfold closedSpansFrom
      rw [if_neg hM, if_pos hI]
      exact hcs
    rw [if_neg hI] at hp
    by_cases hB : ev.ph = "B"
    · rw [if_pos hB] at hp
      obtain rfl : st₁ = { st₀ with unclosedStack := ev :: st₀.unclosedStack } := by
        injection hp with h'; exact h'.symm
      refine ⟨cs, ?_, hsp, hmin, hmax⟩
      unfold closedSpansFrom
      rw [if_neg hM, if_neg (by simpa using hI), if_pos hB]
      exact hcs
    rw [if_neg hB] at hp
    by_cases hE : ev.ph = "E"
    · rw [if_pos hE] at hp
      rcases hstk : st₀.unclosedStack with _ | ⟨b, rest⟩
      · rw [hstk] at hp; exact absurd hp (by simp)
      rw [hstk] at hp
      simp only [Option.some.injEq] at hp
      subst hp
      simp only at hcs hsp hmin hmax
      refine ⟨{ event := some b, start := b.ts, endT := ev.ts } :: cs, ?_, ?_, ?_, ?_⟩
      · simp only [closedSpansFrom, if_neg hM, if_neg hI, if_neg hB, if_pos hE]
        rw [hcs]
        rfl
      · rw [hsp]
        by_cases hd : minDuration ≤ ev.ts - b.ts <;>
          simp [List.filter, hd, List.append_assoc]
      · simpa using hmin
      · simpa using hmax
    rw [if_neg hE] at hp
    by_cases hX : ev.ph = "X"
    · rw [if_pos hX] at hp
      simp only [Option.some.injEq] at hp
      subst hp
      simp only at hcs hsp hmin hmax
      refine ⟨{ event := some ev, start := ev.ts, endT := ev.ts + ev.dur.getD 0 } :: cs, ?_, ?_, ?_, ?_⟩
      · simp only [closedSpansFrom, if_neg hM, if_neg hI, if_neg hB, if_neg hE, if_pos hX]
        rw [hcs]
        rfl
      · rw [hsp]
        have hsimp : ev.ts + ev.dur.getD 0 - ev.ts = ev.dur.getD 0 := by ring
        by_cases hd : minDuration ≤ ev.dur.getD 0 <;>
          simp [List.filter, hd, hsimp, List.append_assoc]
      · simpa using hmin
      · simpa using hmax
    rw [if_neg hX] at hp
    simp only [Option.some.injEq] at hp
    subst hp
    refine ⟨cs, ?_, hsp, hmin, hmax⟩
    unfold closedSpansFrom
    rw [if_neg hM, if_neg hI, if_neg hB, if_neg hE, if_neg hX]
    exact hcs

/-- Claim C6: for every event stream, the ingester appends a span to the
output list if and only if the span's duration (`end - start`) is at least
`minDuration`, while `minTime` and `maxTime` are updated from every closed
span's start and end respectively, including spans shorter than
`minDuration`: the output span list is exactly the duration filter of the
closed spans, `minTime` is the running minimum (from `Infinity`, modelled
as `none`) of every closed span's start, and `maxTime` the running maximum
(from `0`) of every closed span's end. -/
theorem parseEvents_spans_iff_minDuration (minDuration : Int) (events : List Event)
    (st : ParseState) (h : parseEvents minDuration events = some st) :
    ∃ cs, closedSpans events = some cs ∧
      st.spans = cs.filter (fun s => minDuration ≤ s.endT - s.start) ∧
      (∀ s, s ∈ st.spans ↔ s ∈ cs ∧ minDuration ≤ s.endT - s.start) ∧
      st.minTime = cs.foldl (fun m s => minOpt m s.start) none ∧
      st.maxTime = cs.foldl (fun m s => max m s.endT) 0 := by
  obtain ⟨cs, hcs, hsp, hmin, hmax⟩ := parseEventsFrom_characterization minDuration events { } st h
  refine ⟨cs, hcs, by simpa using hsp, ?_, hmin, hmax⟩
  intro s
  rw [show st.spans = cs.filter (fun s => minDuration ≤ s.endT - s.start) by simpa using hsp]
  simp [List.mem_filter]

/-- Witness for C6 on a concrete stream: one `X` span of duration 10 and a
`B`/`E` pair of duration 2; with `minDuration = 5` only the first survives,
while `minTime`/`maxTime` see both. -/
theorem parseEvents_spans_iff_minDuration_witness :
    ∃ st, parseEvents 5 [{ ph := "X", ts := 100, dur := some 10 },
                         { ph := "B", ts := 200 },
                         { ph := "E", ts := 202 }] = some st ∧
      ∃ cs, closedSpans [{ ph := "X", ts := 100, dur := some 10 },
                         { ph := "B", ts := 200 },
                         { ph := "E", ts := 202 }] = some cs ∧
        st.spans = cs.filter (fun s => (5 : Int) ≤ s.endT - s.start) ∧
        (∀ s, s ∈ st.spans ↔ s ∈ cs ∧ (5 : Int) ≤ s.endT - s.start) ∧
        st.minTime = cs.foldl (fun m s => minOpt m s.start) none ∧
        st.maxTime = cs.foldl (fun m s => max m s.endT) 0 := by
  refine ⟨{ minTime := some 100, maxTime := 202, unclosedStack := [],
            spans := [{ event := some { ph := "X", ts := 100, dur := some 10 },
                        start := 100, endT := 110 }] }, by decide, ?_⟩
  exact parseEvents_spans_iff_minDuration 5 _ _ (by decide)

/-- Boolean check that every `E` event arrives while the unclosed stack is
nonempty; the counter mirrors the stack length through the guards of
`processEvent`. -/
def stackSafeFrom (depth : Nat) : List Event → Bool
  | [] => true
  | ev :: evs =>
    if ev.ph = "M" then stackSafeFrom depth evs
    else if ev.ph = "i" ∨ ev.ph = "I" then stackSafeFrom depth evs
    else if ev.ph = "B" then stackSafeFrom (depth + 1) evs
    else if ev.ph = "E" then
      match depth with
      | 0 => false
      | d + 1 => stackSafeFrom d evs
    else stackSafeFrom depth evs

theorem parseEventsFrom_isSome_of_stackSafe (minDuration : Int) :
    ∀ (events : List Event) (st : ParseState),
      stackSafeFrom st.unclosedStack.length events = true →
      (parseEventsFrom minDuration st events).isSome := by
  intro events
  induction events with
  | nil => intro st _; simp [parseEventsFrom]
  | cons ev evs ih =>
    intro st hsafe
    unfold stackSafeFrom at hsafe
    unfold parseEventsFrom processEvent
    by_cases hM : ev.ph = "M"
    · rw [if_pos hM] at hsafe ⊢; exact ih st hsafe
    rw [if_neg hM] at hsafe ⊢
    by_cases hI : ev.ph = "i" ∨ ev.ph = "I"
    · rw [if_pos hI] at hsafe ⊢; exact ih st hsafe
    rw [if_neg hI] at hsafe ⊢
    by_cases hB : ev.ph = "B"
    · rw [if_pos hB] at hsafe ⊢
      exact ih { st with unclosedStack := ev :: st.unclosedStack } hsafe
    rw [if_neg hB] at hsafe ⊢
    by_cases hE : ev.ph = "E"
    · rw [if_pos hE] at hsafe ⊢
      rcases hstk : st.unclosedStack with _ | ⟨b, rest⟩
      · rw [hstk] at hsafe; simp at hsafe
      · rw [hstk] at hsafe
        simp only [List.length_cons] at hsafe
        simp only
        refine ih _ ?_
        simpa [hstk] using hsafe
    rw [if_neg hE] at hsafe ⊢
    by_cases hX : ev.ph = "X"
    · rw [if_pos hX]
      simp only
      exact ih _ hsafe
    · rw [if_neg hX]
      simp only
      exact ih st hsafe

/-- Claim C9: an `E` event delivered while the unclosed stack is empty makes
the ingester fault (the source pops `undefined` and dereferences its `ts`,
modelled as `parseEvents = none`), and under the precondition that every `E`
is preceded by a matching unmatched `B` (`stackSafeFrom 0`) the failure
branch is unreachable — parsing always succeeds. -/
theorem parseEvents_emptyStack_E_faults (minDuration : Int) :
    parseEvents minDuration [{ ph := "E", ts := 7 }] = none ∧
    ∀ events : List Event, stackSafeFrom 0 events = true →
      (parseEvents minDuration events).isSome := by
  constructor
  · simp [parseEvents, parseEventsFrom, processEvent]
  · intro events hsafe
    exact parseEventsFrom_isSome_of_stackSafe minDuration events { } hsafe

/-- Witness for C9 at a concrete well-matched stream `[B, E]`. -/
theorem parseEvents_emptyStack_E_faults_witness :
    (parseEvents 5 [{ ph := "B", ts := 1 }, { ph := "E", ts := 2 }]).isSome := by
  exact (parseEvents_emptyStack_E_faults 5).2 _ (by decide)

/-- The downward scan of `main`'s ancestor stack (source part_000 lines
178-186): starting from the top, find the first entry (root excluded — the
embedded stack holds only the non-root entries, head = top) whose end
exceeds the new span's start; on a hit the stack is truncated to that entry
(`stack.length = i + 1`) and the entry is the candidate parent.  `none`
means the scan fell through to the root, in which case the source leaves
the stack untruncated. -/
def seekParent (spanStart : Int) : List Span → Option (List Span × Span)
  | [] => none
  | curr :: rest =>
    if spanStart < curr.endT then some (curr :: rest, curr)
    else seekParent spanStart rest

/-- State of the promotion loop: the ancestor stack above the root (head =
top) and the promotions made so far, each recording the span together with
the candidate parent in force at the time of promotion. -/
structure BuildState where
  stack : List Span := []
  promoted : List (Span × Span) := []
  deriving Repr, DecidableEq

/-- One iteration of `main`'s span loop (source part_000 lines 177-194):
pop down to the candidate parent, then promote the span as a child (and
push it onto the ancestor stack) iff its duration reaches
`thresholdDuration` or `minPercentage` of the parent's interval length;
otherwise the span is discarded. -/
def promoteStep (thresholdDuration : Int) (minPercentage : Rat) (root : Span)
    (st : BuildState) (span : Span) : BuildState :=
  let popped :=
    match seekParent span.start st.stack with
    | some sp => sp
    | none => (st.stack, root)
  let parent := popped.2
  let duration := span.endT - span.start
  if thresholdDuration ≤ duration ∨
      minPercentage * ((parent.endT - parent.start : Int) : Rat) ≤ (duration : Rat) then
    { stack := span :: popped.1, promoted := st.promoted ++ [(span, parent)] }
  else
    { stack := popped.1, promoted := st.promoted }

/-- The whole promotion pass: a stable sort of the spans by start time
(`Array.prototype.sort` with comparator `a.start - b.start`), then the
promotion loop starting from an ancestor stack holding only the root. -/
def buildPromotions (thresholdDuration : Int) (minPercentage : Rat) (root : Span)
    (spans : List Span) : BuildState :=
  (List.insertionSort (fun a b : Span => a.start ≤ b.start) spans).foldl
    (promoteStep thresholdDuration minPercentage root) { }

theorem promoteStep_foldl_condition (thr : Int) (minPct : Rat) (root : Span) :
    ∀ (l : List Span) (st₀ : BuildState),
      (∀ p ∈ st₀.promoted,
        thr ≤ p.1.endT - p.1.start ∨
          minPct * ((p.2.endT - p.2.start : Int) : Rat) ≤ ((p.1.endT - p.1.start : Int) : Rat)) →
      ∀ p ∈ (l.foldl (promoteStep thr minPct root) st₀).promoted,
        thr ≤ p.1.endT - p.1.start ∨
          minPct * ((p.2.endT - p.2.start : Int) : Rat) ≤ ((p.1.endT - p.1.start : Int) : Rat) := by
  intro l
  induction l with
  | nil => intro st₀ h p hp; exact h p hp
  | cons span rest ih =>
    intro st₀ h p hp
    refine ih _ ?_ p hp
    intro q hq
    unfold promoteStep at hq
    by_cases hc : thr ≤ span.endT - span.start ∨
        minPct * (((match seekParent span.start st₀.stack with
                    | some sp => sp
                    | none => (st₀.stack, root)).2.endT -
                   (match seekParent span.start st₀.stack with
                    | some sp => sp
                    | none => (st₀.stack, root)).2.start : Int) : Rat) ≤
          ((span.endT - span.start : Int) : Rat)
    · rw [if_pos hc] at hq
      simp only [List.mem_append, List.mem_singleton] at hq
      rcases hq with hq | hq
      · exact h q hq
      · subst hq; exact hc
    · rw [if_neg hc] at hq
      exact h q hq

/-- Claim C3: for every input span list and parameter values, every span
promoted by the span-tree builder satisfies
`thresholdDuration ≤ duration ∨ minPercentage * parentDuration ≤ duration`,
where the parent is the ancestor-stack candidate parent recorded at the
time of promotion; spans failing both tests are never promoted (the
promotion list only grows under this guard). -/
theorem buildPromotions_promoted_condition (thr : Int) (minPct : Rat) (root : Span)
    (spans : List Span) (p : Span × Span)
    (hp : p ∈ (buildPromotions thr minPct root spans).promoted) :
    thr ≤ p.1.endT - p.1.start ∨
      minPct * ((p.2.endT - p.2.start : Int) : Rat) ≤ ((p.1.endT - p.1.start : Int) : Rat) := by
  exact promoteStep_foldl_condition thr minPct root _ { } (by simp) p hp

/-- Witness for C3: a 60-unit span under a 100-unit root with
`thresholdDuration = 50`, `minPercentage = 3/5` is promoted and satisfies
the disjunction. -/
theorem buildPromotions_promoted_condition_witness :
    ({ start := 0, endT := 60 : Span }, { start := 0, endT := 100 : Span }) ∈
      (buildPromotions 50 (3/5 : Rat) { start := 0, endT := 100 } [{ start := 0, endT := 60 }]).promoted ∧
    ((50 : Int) ≤ (60 : Int) - 0 ∨
      (3/5 : Rat) * (((100 : Int) - 0 : Int) : Rat) ≤ (((60 : Int) - 0 : Int) : Rat)) := by
  refine ⟨by decide, ?_⟩
  exact buildPromotions_promoted_condition 50 (3/5 : Rat) { start := 0, endT := 100 }
    [{ start := 0, endT := 60 }]
    ({ start := 0, endT := 60 }, { start := 0, endT := 100 }) (by decide)

/-- A raw position request for the normalizer: a byte offset (negative
offsets mark "end" positions, see `recordPositions`) or a raw line/char
pair from a type location. -/
inductive RawPosition where
  | offset (o : Int)
  | lineChar (lc : LineChar)
  deriving Repr, DecidableEq

/-- A `location` field parsed out of a type descriptor key. -/
structure TypeLocation where
  path : String
  line : Nat
  char : Nat
  deriving Repr, DecidableEq

/-- One entry of a type tree: the key's parsed type descriptor carries an
optional location, and its value object's entries are the sub-entries. -/
inductive TypeTree where
  | node (loc : Option TypeLocation) (subs : List TypeTree)

/-- The annotated span tree (`EventSpan` with its `children`, plus the
optionally attached type tree, an absent tree being the empty entry
list). -/
inductive EventSpan where
  | mk (event : Option Event) (start endT : Int) (children : List EventSpan)
       (typeTree : List TypeTree)

/-- JS truthiness of an optional number (`undefined` and `0` are falsy). -/
def intTruthy : Option Int → Bool
  | some v => v ≠ 0
  | none => false

mutual

/-- The `recordPositionsInTypeTree` walk (source part_000 lines 306-318):
every `location` contributes the raw pair `[line, char]` for its path. -/
def recordTypeTree : TypeTree → List (String × RawPosition)
  | .node loc subs =>
    (match loc with
     | some l => [(l.path, RawPosition.lineChar (l.line, l.char))]
     | none => []) ++
    recordTypeTreeList subs

/-- The walk of `recordTypeTree` over a list of sibling entries. -/
def recordTypeTreeList : List TypeTree → List (String × RawPosition)
  | [] => []
  | t :: ts => recordTypeTree t ++ recordTypeTreeList ts

end

/-- The current-file update of `recordPositions`: a `checkSourceFile` span
switches the current file to its `args.path` for its subtree. -/
def updatedFile (event : Option Event) (cf : Option String) : Option String :=
  match event with
  | some e => if e.name = "checkSourceFile" then e.args.bind EventArgs.path else cf
  | none => cf

/-- The `recordPosition` calls a single span makes for itself (source
part_000 lines 286-297): nothing for a `checkSourceFile` span; for a truthy
current file and category `check`, a truthy `args.pos` is recorded as a
positive offset and a truthy `args.end` is recorded negated ("since end
should not be moved past trivia"). -/
def ownRecords (event : Option Event) (cf : Option String) : List (String × RawPosition) :=
  match event, cf with
  | some e, some f =>
    if e.name = "checkSourceFile" then []
    else if f ≠ "" ∧ e.cat = "check" then
      match e.args with
      | some a =>
        (match a.pos with
         | some p => if p ≠ 0 then [(f, RawPosition.offset p)] else []
         | none => []) ++
        (match a.endPos with
         | some q => if q ≠ 0 then [(f, RawPosition.offset (-q))] else []
         | none => [])
      | none => []
    else []
  | _, _ => []

mutual

/-- The `recordPositions` walk of `getNormalizedPositions` (source part_000
lines 285-304), returning the sequence of `recordPosition` calls as
`(path, raw position)` pairs: the span's own records, then its children
under the possibly-updated current file, then its type tree. -/
def recordPositions : EventSpan → Option String → List (String × RawPosition)
  | .mk event _ _ children typeTree, currentFile =>
    ownRecords event currentFile ++
      recordPositionsList children (updatedFile event currentFile) ++
      recordTypeTreeList typeTree

/-- The walk of `recordPositions` over a span's children. -/
def recordPositionsList : List EventSpan → Option String → List (String × RawPosition)
  | [], _ => []
  | c :: cs, cf => recordPositions c cf ++ recordPositionsList cs cf

end

/-- Counterexample to claim C5 as stated: a category-`check` span whose
`args.pos` is present with value `0` does not get `pos` recorded (the
source tests JS truthiness, under which `0` is falsy), even though its
`args.end = 5` is recorded as `-5`. -/
theorem recordPositions_pos_zero_skipped :
    (({ pos := some 0, endPos := some 5 } : EventArgs).pos = some 0) ∧
    recordPositions
        (.mk (some { ph := "X", ts := 0, name := "checkExpression", cat := "check",
                     args := some { pos := some 0, endPos := some 5 } }) 0 1 [] [])
        (some "f") = [("f", RawPosition.offset (-5))] ∧
    ("f", RawPosition.offset 0) ∉
      recordPositions
        (.mk (some { ph := "X", ts := 0, name := "checkExpression", cat := "check",
                     args := some { pos := some 0, endPos := some 5 } }) 0 1 [] [])
        (some "f") := by
  refine ⟨rfl, by decide, by decide⟩

/-- Claim C5 as amended: for every span with event category `check`, a name
other than `checkSourceFile`, and a defined (nonempty) current file, the
collector records `args.pos` as a positive offset for that file whenever
`pos` is present and nonzero, and records `args.end` negated whenever
`end` is present and nonzero; a `pos` present with value `0` is not
recorded (for a leaf span). -/
theorem recordPositions_check_records (e : Event) (a : EventArgs) (f : String)
    (start endT : Int) (children : List EventSpan) (typeTree : List TypeTree)
    (hname : e.name ≠ "checkSourceFile") (hcat : e.cat = "check")
    (hargs : e.args = some a) (hf : f ≠ "") :
    (∀ p : Int, a.pos = some p → p ≠ 0 →
      (f, RawPosition.offset p) ∈
        recordPositions (.mk (some e) start endT children typeTree) (some f)) ∧
    (∀ q : Int, a.endPos = some q → q ≠ 0 →
      (f, RawPosition.offset (-q)) ∈
        recordPositions (.mk (some e) start endT children typeTree) (some f)) ∧
    (a.pos = some 0 →
      (f, RawPosition.offset 0) ∉
        recordPositions (.mk (some e) start endT [] []) (some f)) := by
  have hown : ownRecords (some e) (some f) =
      (match a.pos with
       | some p => if p ≠ 0 then [(f, RawPosition.offset p)] else []
       | none => []) ++
      (match a.endPos with
       | some q => if q ≠ 0 then [(f, RawPosition.offset (-q))] else []
       | none => []) := by
    show (if e.name = "checkSourceFile" then []
          else if f ≠ "" ∧ e.cat = "check" then
            match e.args with
            | some a =>
              (match a.pos with
               | some p => if p ≠ 0 then [(f, RawPosition.offset p)] else []
               | none => []) ++
              (match a.endPos with
               | some q => if q ≠ 0 then [(f, RawPosition.offset (-q))] else []
               | none => [])
            | none => []
          else []) = _
    rw [if_neg hname, if_pos (And.intro hf hcat), hargs]
  have hrec : ∀ (cs : List EventSpan) (ts : List TypeTree),
      recordPositions (.mk (some e) start endT cs ts) (some f) =
        ownRecords (some e) (some f) ++
          recordPositionsList cs (updatedFile (some e) (some f)) ++
          recordTypeTreeList ts := by
    intro cs ts
    rfl
  refine ⟨?_, ?_, ?_⟩
  · intro p hp hp0
    rw [hrec, hown]
    simp [hp, hp0]
  · intro q hq hq0
    rw [hrec, hown]
    simp [hq, hq0]
  · intro hp0
    rw [hrec, hown]
    rcases hq : a.endPos with _ | q
    · simp [hp0, hq, recordPositionsList, recordTypeTreeList]
    · by_cases hq0 : q = 0 <;>
        simp [hp0, hq, hq0, recordPositionsList, recordTypeTreeList]

/-- Witness for C5 (amended) at a concrete check span with `pos = 3`,
`end = 9`. -/
theorem recordPositions_check_records_witness :
    ("f", RawPosition.offset 3) ∈
      recordPositions
        (.mk (some { ph := "X", ts := 0, name := "checkExpression", cat := "check",
                     args := some { pos := some 3, endPos := some 9 } }) 0 1 [] [])
        (some "f") ∧
    ("f", RawPosition.offset (-9)) ∈
      recordPositions
        (.mk (some { ph := "X", ts := 0, name := "checkExpression", cat := "check",
                     args := some { pos := some 3, endPos := some 9 } }) 0 1 [] [])
        (some "f") := by
  have h := recordPositions_check_records
    { ph := "X", ts := 0, name := "checkExpression", cat := "check",
      args := some { pos := some 3, endPos := some 9 } }
    { pos := some 3, endPos := some 9 } "f" 0 1 [] []
    (by decide) rfl rfl (by decide)
  exact ⟨h.1 3 rfl (by decide), h.2.1 9 rfl (by decide)⟩

/-- A resolved location link on a printable node (`{file, offset}`).  The
source type requires `file: string`, but the renderer stores `currentFile!`
which is `undefined` at the synthetic root, hence `Option`. -/
structure TreeLink where
  file : Option String := none
  offset : Option Int := none
  deriving Repr, DecidableEq

/-- A printable tree node.  The reserved word `end` is rendered as `stop`.
Absent optional fields model JS properties that were never assigned. -/
structure TreeNode where
  type : String
  time : Option String := none
  message : String
  terseMessage : String
  start : Option TreeLink := none
  stop : Option TreeLink := none
  children : List TreeNode

/-- The number of own enumerable properties `Object.entries` sees on a
printable node: `type`, `message`, `terseMessage` and `children` are always
assigned; `time`, `start` and `end` only sometimes. -/
def entriesCount (t : TreeNode) : Nat :=
  4 + (if t.time.isSome then 1 else 0) + (if t.start.isSome then 1 else 0) +
    (if t.stop.isSome then 1 else 0)

/-- The per-file position map: file path to (canonical raw-position key to
normalized line/char), as an association list. -/
abbrev PositionMap := List (String × List (String × LineChar))

/-- Lookup of a file's map (`positionMap.get(file)`). -/
def pmFile (pm : PositionMap) (f : String) : Option (List (String × LineChar)) :=
  (pm.find? (fun e => e.1 = f)).map (fun e => e.2)

/-- Lookup of a resolved position by key inside a file's map.  The source
dereferences with a non-null assertion; the key is always present because
the renderer and the collector guard on the same conditions, so the
embedding supplies the default `(0, 0)` on the (unreachable) miss. -/
def pmKey (m : List (String × LineChar)) (k : String) : LineChar :=
  ((m.find? (fun e => e.1 = k)).map (fun e => e.2)).getD (0, 0)

/-- Last path component, as `path.basename` on a normal slash path. -/
def basename (p : String) : String :=
  ((p.splitOn "/").getLast?).getD p

/-- The source's `formatPath` colorizes path components with terminal
escape codes and normalizes separators; colorization is presentation-only
(out of the specified core), so the embedding keeps the path itself. -/
def formatPath (p : String) : String := p

/-- The `unmangleCamelCase` helper (source part_000 lines 476-492):
capitalize the first character, insert a space before each subsequent
uppercase character, and lowercase everything. -/
def unmangleCamelCase (name : String) : String :=
  name.data.foldl
    (fun (result : String) (c : Char) =>
      if result.length = 0 then result.push c.toUpper
      else (if c.toLower ≠ c then result.push ' ' else result).push c.toLower)
    ""

/-- Interval length of a span node, used as the child sort key. -/
def spanDuration : EventSpan → Int
  | .mk _ start endT _ _ => endT - start

/-- JS `Math.round(d / 1000)` for an integral `d`: floor of `d/1000 + 1/2`. -/
def jsRound1000 (d : Int) : Int := Int.fdiv (2 * d + 1000) 2000

/-- The node duration label, `"<n>ms"`. -/
def timeString (d : Int) : String := toString (jsRound1000 d) ++ "ms"

/-- The `eventToTreeNode` closure of `makePrintableTree` (source part_000
lines 373-436).  A span without an event (the synthetic root) yields the
default node.  `checkSourceFile` yields a "Check file" node.  The
`structuredTypeRelatedTo` and `getVariancesWorker` arms assign messages to
the local node but end in a bare `return`, so the function yields
`undefined` — modelled as `none`.  Category-`check` spans with truthy
`args.pos` and `args.end` yield a node whose message carries either the
resolved line/char range (when the position map knows the file) or the raw
offsets; everything else yields `undefined`. -/
def eventToTreeNode (event : Option Event) (currentFile : Option String)
    (positionMap : PositionMap) : Option TreeNode :=
  let base : TreeNode :=
    { message := "", terseMessage := "", type := "hot-spots", children := [],
      start := some { file := currentFile } }
  match event with
  | none => some base
  | some ev =>
    let tn := { base with type := ev.name }
    if ev.name = "checkSourceFile" then
      some { tn with
        message := "Check file " ++ formatPath (currentFile.getD "undefined"),
        terseMessage := "Check file " ++ basename (currentFile.getD "undefined") }
    else if ev.name = "structuredTypeRelatedTo" then none
    else if ev.name = "getVariancesWorker" then none
    else
      match ev.args with
      | some a =>
        match a.pos, a.endPos with
        | some p, some q =>
          if ev.cat = "check" ∧ p ≠ 0 ∧ q ≠ 0 then
            match currentFile with
            | some f =>
              match pmFile positionMap f with
              | some fileMap =>
                let updatedPos := pmKey fileMap (toString p)
                let updatedEnd := pmKey fileMap (toString q)
                some { tn with
                  message := unmangleCamelCase ev.name ++ " from (line " ++
                    toString updatedPos.1 ++ ", char " ++ toString updatedPos.2 ++
                    ") to (line " ++ toString updatedEnd.1 ++ ", char " ++
                    toString updatedEnd.2 ++ ")",
                  terseMessage := unmangleCamelCase ev.name,
                  start := some { file := some f, offset := some p },
                  stop := some { file := some f, offset := some q } }
              | none =>
                some { tn with
                  message := unmangleCamelCase ev.name ++ " from offset " ++
                    toString p ++ " to offset " ++ toString q,
                  terseMessage := unmangleCamelCase ev.name }
            | none =>
              some { tn with
                message := unmangleCamelCase ev.name ++ " from offset " ++
                  toString p ++ " to offset " ++ toString q,
                terseMessage := unmangleCamelCase ev.name }
          else none
        | _, _ => none
      | none => none

/-- The `makePrintableTree` recursion (source part_000 lines 345-371): the
current file is updated by `checkSourceFile` spans, the node (when the
event maps to one) gets its duration label, and a nonempty child list is
sorted by descending duration and rendered, dropping children whose
rendering yields `undefined`.  (The source also calls
`updateTypeTreePositions`, whose return value it discards; the call
mutates nothing reachable and is omitted.) -/
def makePrintableTree : EventSpan → Option String → PositionMap → Option TreeNode
  | .mk event start endT children _, currentFile, positionMap =>
    let cf := updatedFile event currentFile
    (eventToTreeNode event cf positionMap).map (fun node =>
      { node with
        time := some (timeString (endT - start)),
        children :=
          if children.length ≠ 0 then
            ((List.insertionSort (fun a b : EventSpan => spanDuration b ≤ spanDuration a)
                children).attach.map
              (fun c => makePrintableTree c.1 cf positionMap)).reduceOption
          else node.children })
termination_by s _ _ => sizeOf s
decreasing_by
  have hmem : c.1 ∈ children :=
    (List.perm_insertionSort (fun a b : EventSpan => spanDuration b ≤ spanDuration a)
      children).mem_iff.mp c.2
  have := List.sizeOf_lt_of_mem hmem
  simp only [EventSpan.mk.sizeOf_spec]
  omega

/-- The hot-spots decision of `makeHotStacks` (source part_000 lines
224-234): the "Hot Spots" header and tree are printed iff the printable
tree is defined and `Object.entries` of its root is nonempty; otherwise
"No hot spots found" is printed. -/
def printsHotSpots (tree : Option TreeNode) : Bool :=
  match tree with
  | some t => entriesCount t ≠ 0
  | none => false

/-- Claim C4 (code bug): for every span whose event name is
`structuredTypeRelatedTo` or `getVariancesWorker`, the renderer yields no
node at all — the source builds the message and then falls through a bare
`return`, so the node is elided from the output tree, contrary to the
spec's recognized node kinds. -/
theorem eventToTreeNode_structuredTypeRelatedTo_elided (ev : Event)
    (cf : Option String) (pm : PositionMap)
    (hname : ev.name = "structuredTypeRelatedTo" ∨ ev.name = "getVariancesWorker") :
    eventToTreeNode (some ev) cf pm = none ∧
    ∀ (s t : Int) (children : List EventSpan) (tt : List TypeTree),
      makePrintableTree (.mk (some ev) s t children tt) cf pm = none := by
  have hne : ev.name ≠ "checkSourceFile" := by
    rcases hname with h | h <;> rw [h] <;> decide
  have hmain : eventToTreeNode (some ev) cf pm = none := by
    unfold eventToTreeNode
    rcases hname with h | h <;> simp [h]
  refine ⟨hmain, ?_⟩
  intro s t children tt
  have hcf : updatedFile (some ev) cf = cf := by
    simp [updatedFile, hne]
  unfold makePrintableTree
  simp only [hcf, hmain, Option.map_none']

/-- Witness for C4 at a concrete `structuredTypeRelatedTo` leaf span. -/
theorem eventToTreeNode_structuredTypeRelatedTo_elided_witness :
    eventToTreeNode
        (some { ph := "X", ts := 0, name := "structuredTypeRelatedTo", cat := "checkTypes",
                args := some { sourceId := some 1, targetId := some 2 } }) (some "f") [] = none ∧
    makePrintableTree
        (.mk (some { ph := "X", ts := 0, name := "structuredTypeRelatedTo", cat := "checkTypes",
                     args := some { sourceId := some 1, targetId := some 2 } }) 0 1 [] [])
        (some "f") [] = none := by
  have h := eventToTreeNode_structuredTypeRelatedTo_elided
    { ph := "X", ts := 0, name := "structuredTypeRelatedTo", cat := "checkTypes",
      args := some { sourceId := some 1, targetId := some 2 } }
    (some "f") [] (Or.inl rfl)
  exact ⟨h.1, h.2 0 1 [] []⟩

/-- Claim C2 (code bug): for the empty trace `[]` the ingester yields no
spans and no unclosed events and the builder promotes nothing, so the
printable tree is the lone synthetic root node (empty message, no
children) — but `makeHotStacks` still prints the "Hot Spots" header,
because `eventToTreeNode` always yields the default node for the eventless
root and `Object.entries` of any node counts its always-assigned
properties, so the "No hot spots found" branch is not taken (indeed it is
unreachable whenever a tree is produced). -/
theorem emptyTrace_prints_hotspots_header (minDuration thr : Int) (pct : Rat) (r : Span) :
    parseEvents minDuration [] = some { } ∧
    (buildPromotions thr pct r []).promoted = [] ∧
    (∀ s t : Int,
      makePrintableTree (.mk none s t [] []) none [] =
        some { type := "hot-spots", time := some (timeString (t - s)), message := "",
               terseMessage := "", start := some { file := none }, children := [] } ∧
      printsHotSpots (makePrintableTree (.mk none s t [] []) none []) = true) ∧
    (∀ node : TreeNode, printsHotSpots (some node) = true) := by
  refine ⟨rfl, rfl, ?_, ?_⟩
  · intro s t
    have h : makePrintableTree (.mk none s t [] []) none [] =
        some { type := "hot-spots", time := some (timeString (t - s)), message := "",
               terseMessage := "", start := some { file := none }, children := [] } := by
      unfold makePrintableTree
      rfl
    exact ⟨h, by rw [h]; rfl⟩
  · intro node
    unfold printsHotSpots entriesCount
    simp

/-- Character codes of normalize-positions.ts lines 56-72. -/
def code_CarriageReturn : Int := 13

def code_NewLine : Int := 10

def code_Space : Int := 32

def code_Tab : Int := 9

def code_Slash : Int := 47

def code_Backslash : Int := 92

def code_Star : Int := 42

def code_Hash : Int := 35

def code_Bang : Int := 33

def code_SingleQuote : Int := 39

def code_DoubleQuote : Int := 34

def code_OpenBrace : Int := 123

def code_CloseBrace : Int := 125

def code_OpenBracket : Int := 91

def code_CloseBracket : Int := 93

def code_Backtick : Int := 96

def code_Dollar : Int := 36

/-- The scanner's lexical state enum (normalize-positions.ts lines 74-101). -/
inductive ScanState where
  | Uninitialized
  | Default
  | StartSingleLineComment
  | SingleLineComment
  | StartMultiLineComment
  | MultiLineComment
  | EndMultiLineComment
  | StartShebangComment
  | ShebangComment
  | SingleQuoteString
  | SingleQuoteStringEscapeBackslash
  | SingleQuoteStringEscapeQuote
  | DoubleQuoteString
  | DoubleQuoteStringEscapeBackslash
  | DoubleQuoteStringEscapeQuote
  | TemplateString
  | TemplateStringEscapeBackslash
  | TemplateStringEscapeQuote
  | StartExpressionHole
  | Regex
  | RegexEscapeBackslash
  | RegexEscapeSlash
  | RegexEscapeOpenBracket
  | CharClass
  | CharClassEscapeBackslash
  | CharClassEscapeCloseBracket
  deriving Repr, DecidableEq

/-- The scalar scanner state mutated by the big switch: lexical state, brace
depth, and the template-string brace-depth stack (head = stack top). -/
structure ScannerCore where
  state : ScanState := .Default
  braceDepth : Nat := 0
  templateStack : List Nat := []
  deriving Repr, DecidableEq

/-- Result of the switch of `onChar`: the updated scalar state, the deferred
`nextState` (applied after the character is consumed), and whether this
character wraps the line. -/
structure SwitchResult where
  core : ScannerCore
  nextState : Option ScanState := none
  wrapLine : Bool := false
  deriving Repr, DecidableEq

/-- State reset on a `\r` that is followed by `\n` (lines 141-151): comment
and error-recovery states return to default; no line wrap here (the wrap is
charged to the following `\n`). -/
def crlfReset (st : ScanState) : ScanState :=
  match st with
  | .ShebangComment | .SingleLineComment
  | .SingleQuoteString | .DoubleQuoteString | .Regex | .CharClass => .Default
  | _ => st

/-- The newline case (lines 154-164), also reached by fall-through from a
lone `\r`: wraps the line and resets single-line forms to default. -/
def newlineStep (c : ScannerCore) : SwitchResult :=
  let st := match c.state with
    | .ShebangComment | .SingleLineComment => ScanState.Default
    | .SingleQuoteString | .DoubleQuoteString => ScanState.Default
    | s => s
  { core := { c with state := st }, wrapLine := true }

/-- The slash case (lines 166-191). -/
def slashStep (nextCh : Int) (c : ScannerCore) : SwitchResult :=
  match c.state with
  | .Default =>
    if nextCh = code_Slash then { core := { c with state := .StartSingleLineComment } }
    else if nextCh = code_Star then { core := { c with state := .StartMultiLineComment } }
    else { core := { c with state := .Regex } }
  | .StartSingleLineComment => { core := { c with state := .SingleLineComment } }
  | .EndMultiLineComment => { core := c, nextState := some .Default }
  | .Regex => { core := c, nextState := some .Default }
  | .RegexEscapeSlash => { core := c, nextState := some .Regex }
  | _ => { core := c }

/-- The star case (lines 193-202). -/
def starStep (nextCh : Int) (c : ScannerCore) : SwitchResult :=
  match c.state with
  | .StartMultiLineComment => { core := { c with state := .MultiLineComment } }
  | .MultiLineComment =>
    if nextCh = code_Slash then { core := { c with state := .EndMultiLineComment } }
    else { core := c }
  | _ => { core := c }

/-- The hash case (lines 204-208): a shebang opener only at offset 0. -/
def hashStep (nextCh : Int) (currOffset : Int) (c : ScannerCore) : SwitchResult :=
  if currOffset = 0 ∧ c.state = .Default ∧ nextCh = code_Bang then
    { core := { c with state := .StartShebangComment } }
  else { core := c }

/-- The bang case (lines 210-214). -/
def bangStep (c : ScannerCore) : SwitchResult :=
  match c.state with
  | .StartShebangComment => { core := { c with state := .ShebangComment } }
  | _ => { core := c }

/-- The single-quote case (lines 216-226). -/
def singleQuoteStep (c : ScannerCore) : SwitchResult :=
  match c.state with
  | .Default => { core := { c with state := .SingleQuoteString } }
  | .SingleQuoteStringEscapeQuote => { core := c, nextState := some .SingleQuoteString }
  | .SingleQuoteString => { core := c, nextState := some .Default }
  | _ => { core := c }

/-- The double-quote case (lines 228-238). -/
def doubleQuoteStep (c : ScannerCore) : SwitchResult :=
  match c.state with
  | .Default => { core := { c with state := .DoubleQuoteString } }
  | .DoubleQuoteStringEscapeQuote => { core := c, nextState := some .DoubleQuoteString }
  | .DoubleQuoteString => { core := c, nextState := some .Default }
  | _ => { core := c }

/-- The backtick case (lines 240-250). -/
def backtickStep (c : ScannerCore) : SwitchResult :=
  match c.state with
  | .Default => { core := { c with state := .TemplateString } }
  | .TemplateStringEscapeQuote => { core := c, nextState := some .TemplateString }
  | .TemplateString => { core := c, nextState := some .Default }
  | _ => { core := c }

/-- The backslash case (lines 252-311). -/
def backslashStep (nextCh : Int) (c : ScannerCore) : SwitchResult :=
  match c.state with
  | .SingleQuoteString =>
    if nextCh = code_SingleQuote then { core := { c with state := .SingleQuoteStringEscapeQuote } }
    else if nextCh = code_Backslash then { core := { c with state := .SingleQuoteStringEscapeBackslash } }
    else { core := c }
  | .DoubleQuoteString =>
    if nextCh = code_DoubleQuote then { core := { c with state := .DoubleQuoteStringEscapeQuote } }
    else if nextCh = code_Backslash then { core := { c with state := .DoubleQuoteStringEscapeBackslash } }
    else { core := c }
  | .TemplateString =>
    if nextCh = code_Backtick then { core := { c with state := .TemplateStringEscapeQuote } }
    else if nextCh = code_Backslash then { core := { c with state := .TemplateStringEscapeBackslash } }
    else { core := c }
  | .Regex =>
    if nextCh = code_OpenBracket then { core := { c with state := .RegexEscapeOpenBracket } }
    else if nextCh = code_Slash then { core := { c with state := .RegexEscapeSlash } }
    else if nextCh = code_Backslash then { core := { c with state := .RegexEscapeBackslash } }
    else { core := c }
  | .CharClass =>
    if nextCh = code_CloseBracket then { core := { c with state := .CharClassEscapeCloseBracket } }
    else if nextCh = code_Backslash then { core := { c with state := .CharClassEscapeBackslash } }
    else { core := c }
  | .SingleQuoteStringEscapeBackslash => { core := c, nextState := some .SingleQuoteString }
  | .DoubleQuoteStringEscapeBackslash => { core := c, nextState := some .DoubleQuoteString }
  | .TemplateStringEscapeBackslash => { core := c, nextState := some .TemplateString }
  | .RegexEscapeBackslash => { core := c, nextState := some .Regex }
  | .CharClassEscapeBackslash => { core := c, nextState := some .CharClass }
  | _ => { core := c }

/-- The dollar case (lines 313-317). -/
def dollarStep (nextCh : Int) (c : ScannerCore) : SwitchResult :=
  if c.state = .TemplateString ∧ nextCh = code_OpenBrace then
    { core := { c with state := .StartExpressionHole } }
  else { core := c }

/-- The open-brace case (lines 319-327). -/
def openBraceStep (c : ScannerCore) : SwitchResult :=
  match c.state with
  | .Default => { core := { c with braceDepth := c.braceDepth + 1 } }
  | .StartExpressionHole =>
    { core := { c with templateStack := c.braceDepth :: c.templateStack },
      nextState := some .Default }
  | _ => { core := c }

/-- The close-brace case (lines 329-337): pops the template-string stack
when the depth matches, else error-recovers a stray close at positive
depth. -/
def closeBraceStep (c : ScannerCore) : SwitchResult :=
  match c.templateStack with
  | top :: rest =>
    if c.braceDepth = top then
      { core := { c with templateStack := rest, state := .TemplateString } }
    else defaultCloseBrace c
  | [] => defaultCloseBrace c
where
  /-- The non-template-stack close-brace behavior (lines 334-336). -/
  defaultCloseBrace (c : ScannerCore) : SwitchResult :=
    if c.state = .Default ∧ 0 < c.braceDepth then
      { core := { c with braceDepth := c.braceDepth - 1 } }
    else { core := c }

/-- The open-bracket case (lines 339-346). -/
def openBracketStep (c : ScannerCore) : SwitchResult :=
  match c.state with
  | .RegexEscapeOpenBracket => { core := c, nextState := some .Regex }
  | .Regex => { core := { c with state := .CharClass } }
  | _ => { core := c }

/-- The close-bracket case (lines 348-355). -/
def closeBracketStep (c : ScannerCore) : SwitchResult :=
  match c.state with
  | .CharClassEscapeCloseBracket => { core := c, nextState := some .CharClass }
  | .CharClass => { core := c, nextState := some .Regex }
  | _ => { core := c }

/-- The big switch of `onChar` (lines 139-356). -/
def switchStep (ch nextCh : Int) (currOffset : Int) (c : ScannerCore) : SwitchResult :=
  if ch = code_CarriageReturn then
    if nextCh = code_NewLine then { core := { c with state := crlfReset c.state } }
    else newlineStep c
  else if ch = code_NewLine then newlineStep c
  else if ch = code_Slash then slashStep nextCh c
  else if ch = code_Star then starStep nextCh c
  else if ch = code_Hash then hashStep nextCh currOffset c
  else if ch = code_Bang then bangStep c
  else if ch = code_SingleQuote then singleQuoteStep c
  else if ch = code_DoubleQuote then doubleQuoteStep c
  else if ch = code_Backtick then backtickStep c
  else if ch = code_Backslash then backslashStep nextCh c
  else if ch = code_Dollar then dollarStep nextCh c
  else if ch = code_OpenBrace then openBraceStep c
  else if ch = code_CloseBrace then closeBraceStep c
  else if ch = code_OpenBracket then openBracketStep c
  else if ch = code_CloseBracket then closeBracketStep c
  else { core := c }

/-- Comment and shebang states (lines 359-365) classify the character as
trivia. -/
def isTriviaState : ScanState → Bool
  | .StartSingleLineComment | .SingleLineComment | .StartMultiLineComment
  | .MultiLineComment | .EndMultiLineComment | .StartShebangComment
  | .ShebangComment => true
  | _ => false

/-- The JS regex `\s` character class (the source tests
`/^\s$/.test(String.fromCharCode(ch))` for Unicode whitespace). -/
def isUnicodeWhitespace (ch : Int) : Bool :=
  (9 ≤ ch ∧ ch ≤ 13) ∨ ch = 32 ∨ ch = 160 ∨ ch = 5760 ∨
    (8192 ≤ ch ∧ ch ≤ 8202) ∨ ch = 8232 ∨ ch = 8233 ∨ ch = 8239 ∨ ch = 8287 ∨
    ch = 12288 ∨ ch = 65279

/-- Trivia classification of a character after the switch ran
(lines 358-370). -/
def isTrivia (ch : Int) (st : ScanState) : Bool :=
  isTriviaState st ∨ ch = code_Space ∨ ch = code_Tab ∨ ch = code_NewLine ∨
    ch = code_CarriageReturn ∨ isUnicodeWhitespace ch

/-- A pending offset request (a `PositionWrapper` holding an offset). -/
structure OffsetWrapper where
  returnIndex : Nat
  offset : Int
  deriving Repr, DecidableEq

/-- A pending line/char request (a `PositionWrapper` holding a pair). -/
structure LineCharWrapper where
  returnIndex : Nat
  lineChar : LineChar
  deriving Repr, DecidableEq

/-- A bound offset request.  The source also overwrites the wrapper's
`offset` with `currOffset` when binding (line 379), but that store is dead
(the loop cursor has moved past the wrapper and `onEof` reads only
`lineChar` and `returnIndex`), so the embedding keeps the original
offset. -/
structure BoundOffsetWrapper where
  returnIndex : Nat
  offset : Int
  lineChar : LineChar
  deriving Repr, DecidableEq

/-- A bound line/char request. -/
structure BoundLineCharWrapper where
  returnIndex : Nat
  request : LineChar
  lineChar : LineChar
  deriving Repr, DecidableEq

/-- The offset comparator (lines 20-22): plain subtraction — note, not
comparison by absolute value. -/
def compareOffsets (a b : Int) : Int := a - b

/-- The line/char comparator (lines 24-26), with JS `||` picking the second
difference when the first is zero. -/
def compareLineChars (a b : LineChar) : Int :=
  if (a.1 : Int) - (b.1 : Int) ≠ 0 then (a.1 : Int) - (b.1 : Int)
  else (a.2 : Int) - (b.2 : Int)

/-- The whole scanner state: cursor (`currOffset`, `currLineChar`), scalar
lexical state, and the four wrapper lists (pending sorted queues and bound
results, each in binding order). -/
structure Scanner where
  currOffset : Int := 0
  currLineChar : LineChar := (1, 1)
  core : ScannerCore := { }
  pendingOffsets : List OffsetWrapper := []
  boundOffsets : List BoundOffsetWrapper := []
  pendingLCs : List LineCharWrapper := []
  boundLCs : List BoundLineCharWrapper := []
  deriving Repr, DecidableEq

/-- The binding test of the offset loop (line 378):
`compareOffsets(wrapper.offset, currOffset) <= 0`. -/
def offsetPred (currOffset : Int) (w : OffsetWrapper) : Bool :=
  compareOffsets w.offset currOffset ≤ 0

/-- The binding test of the line/char loop (line 383). -/
def lcPred (currLineChar : LineChar) (w : LineCharWrapper) : Bool :=
  compareLineChars w.lineChar currLineChar ≤ 0

/-- The two binding loops of `onChar` for a non-trivia character
(lines 375-387): advance each cursor over every pending wrapper whose
request compares `≤ 0` against the current position, binding it to the
frozen current line/char. -/
def bindStep (s : Scanner) : Scanner :=
  let op := s.pendingOffsets.span (offsetPred s.currOffset)
  let lp := s.pendingLCs.span (lcPred s.currLineChar)
  { s with
    pendingOffsets := op.2
    boundOffsets := s.boundOffsets ++ op.1.map
      (fun w => { returnIndex := w.returnIndex, offset := w.offset, lineChar := s.currLineChar })
    pendingLCs := lp.2
    boundLCs := s.boundLCs ++ lp.1.map
      (fun w => { returnIndex := w.returnIndex, request := w.lineChar, lineChar := s.currLineChar }) }

/-- One `onChar` call (lines 136-404): run the switch, bind pending
positions if the character is non-trivia, advance the offset, wrap or
advance the line/char, and finally apply the deferred `nextState`. -/
def onChar (ch nextCh : Int) (s : Scanner) : Scanner :=
  let r := switchStep ch nextCh s.currOffset s.core
  let b := if isTrivia ch r.core.state then s else bindStep s
  { currOffset := s.currOffset + 1
    currLineChar :=
      if r.wrapLine then (s.currLineChar.1 + 1, 1) else (s.currLineChar.1, s.currLineChar.2 + 1)
    core := { r.core with state := r.nextState.getD r.core.state }
    pendingOffsets := b.pendingOffsets
    boundOffsets := b.boundOffsets
    pendingLCs := b.pendingLCs
    boundLCs := b.boundLCs }

/-- The data/close stream handlers (lines 36-54): each character is passed
to `onChar` with one character of lookahead, the final character with
lookahead `-1`. -/
def runScanAux (prevCh : Int) : List Int → Scanner → Scanner
  | [], s => onChar prevCh (-1) s
  | c :: rest, s => runScanAux c rest (onChar prevCh c s)

/-- Scan a whole character stream (an empty stream calls `onChar` never). -/
def runScan (text : List Int) (s : Scanner) : Scanner :=
  match text with
  | [] => s
  | c :: rest => runScanAux c rest s

/-- The partition loop of `normalizePositions` (lines 108-122) for the
offset wrappers, keeping the original request index. -/
def offsetWrappersOf : List RawPosition → Nat → List OffsetWrapper
  | [], _ => []
  | RawPosition.offset o :: rest, i => { returnIndex := i, offset := o } :: offsetWrappersOf rest (i + 1)
  | RawPosition.lineChar _ :: rest, i => offsetWrappersOf rest (i + 1)

/-- The partition loop for the line/char wrappers. -/
def lineCharWrappersOf : List RawPosition → Nat → List LineCharWrapper
  | [], _ => []
  | RawPosition.offset _ :: rest, i => lineCharWrappersOf rest (i + 1)
  | RawPosition.lineChar lc :: rest, i => { returnIndex := i, lineChar := lc } :: lineCharWrappersOf rest (i + 1)

/-- The sort order of the offset queue (line 124). -/
def owLE (a b : OffsetWrapper) : Prop := compareOffsets a.offset b.offset ≤ 0

instance : DecidableRel owLE := by
  intro a b
  unfold owLE
  infer_instance

instance : IsTotal OffsetWrapper owLE :=
  ⟨by intro a b; unfold owLE compareOffsets; omega⟩

instance : IsTrans OffsetWrapper owLE :=
  ⟨by intro a b c; unfold owLE compareOffsets; omega⟩

/-- The sort order of the line/char queue (line 125). -/
def lcwLE (a b : LineCharWrapper) : Prop := compareLineChars a.lineChar b.lineChar ≤ 0

instance : DecidableRel lcwLE := by
  intro a b
  unfold lcwLE
  infer_instance

/-- The scanner as initialized by `normalizePositions` (lines 105-134):
both queues partitioned out of the request list and sorted (stably, as
`Array.prototype.sort`), cursor at offset 0 and line/char (1, 1), state
default. -/
def initialScanner (positions : List RawPosition) : Scanner :=
  { pendingOffsets := List.insertionSort owLE (offsetWrappersOf positions 0)
    pendingLCs := List.insertionSort lcwLE (lineCharWrappersOf positions 0) }

/-- One slot of `onEof`'s result array (lines 406-432): a bound wrapper
writes its line/char at its return index; unbound wrappers write the
end-of-file line/char. -/
def resultAt (s : Scanner) (i : Nat) : LineChar :=
  match s.boundOffsets.find? (fun w => w.returnIndex == i) with
  | some w => w.lineChar
  | none =>
    match s.boundLCs.find? (fun w => w.returnIndex == i) with
    | some w => w.lineChar
    | none => s.currLineChar

/-- The full result list of `onEof`. -/
def scanResult (s : Scanner) (n : Nat) : List LineChar :=
  (List.range n).map (resultAt s)

/-- The scan-and-resolve core of `normalizePositions` for a fully delivered
character stream. -/
def runNormalize (text : List Int) (positions : List RawPosition) : List LineChar :=
  scanResult (runScan text (initialScanner positions)) positions.length

/-- The `normalizePositions` entry point (lines 28-54): an empty request
list resolves to `[]` immediately, before any stream handler is attached —
even a failing stream cannot reject the promise; otherwise a stream error
rejects, and a fully delivered stream is scanned. -/
def normalizePositions (source : Except String (List Int)) (positions : List RawPosition) :
    Except String (List LineChar) :=
  if positions.length = 0 then Except.ok []
  else
    match source with
    | Except.error e => Except.error e
    | Except.ok text => Except.ok (runNormalize text positions)

/-- Claim C10: with an empty positions array, `normalizePositions` resolves
to the empty array for every stream, without consuming it — in particular
even a stream that errors cannot affect the result, since no handler is
attached. -/
theorem normalizePositions_empty_requests (source : Except String (List Int)) (e : String) :
    normalizePositions source [] = Except.ok [] ∧
    normalizePositions (Except.error e) [] = Except.ok [] :=
  ⟨rfl, rfl⟩

/-- Claim C1 (code bug), evaluated at the failing input: on the file
`"a b"` (codes 97, 32, 98) the end-position request `-2` is bound at the
first non-trivia character of the file, `(1, 1)`, because `compareOffsets`
is plain subtraction and any negative offset compares `≤ 0` against every
`currOffset`; a positive request for `|−2| = 2` binds at `(1, 3)`, the
character `b` — so the negative request is not matched by absolute
value. -/
theorem negativeOffset_binds_first_nontrivia :
    runNormalize [97, 32, 98] [RawPosition.offset (-2)] = [(1, 1)] ∧
    runNormalize [97, 32, 98] [RawPosition.offset 2] = [(1, 3)] ∧
    (1, 1) ≠ ((1, 3) : LineChar) := by
  refine ⟨by decide, by decide, by decide⟩

/-- Claim C8: a `\r` immediately followed by `\n` does not wrap the line
(the column advances), the following `\n` wraps it — so the two-character
sequence `\r\n` advances the line by exactly 1 and resets the column to 1
exactly once; a lone `\r` wraps the line by itself, and a lone `\n` always
wraps the line. -/
theorem onChar_line_wrapping (s : Scanner) (nc nc2 : Int) :
    ((onChar code_CarriageReturn code_NewLine s).currLineChar =
      (s.currLineChar.1, s.currLineChar.2 + 1)) ∧
    ((onChar code_NewLine nc2 (onChar code_CarriageReturn code_NewLine s)).currLineChar =
      (s.currLineChar.1 + 1, 1)) ∧
    (nc ≠ code_NewLine →
      (onChar code_CarriageReturn nc s).currLineChar = (s.currLineChar.1 + 1, 1)) ∧
    ((onChar code_NewLine nc s).currLineChar = (s.currLineChar.1 + 1, 1)) := by
  refine ⟨?_, ?_, ?_, ?_⟩
  · simp [onChar, switchStep]
  · simp [onChar, switchStep, newlineStep, code_CarriageReturn, code_NewLine]
  · intro h
    simp [onChar, switchStep, newlineStep, h]
  · simp [onChar, switchStep, newlineStep, code_CarriageReturn, code_NewLine]

/-- Witness for C8 at the initial scanner and lookahead `-1`. -/
theorem onChar_line_wrapping_witness :
    (-1 : Int) ≠ code_NewLine ∧
    (onChar code_CarriageReturn (-1) (initialScanner [])).currLineChar =
      ((initialScanner []).currLineChar.1 + 1, 1) :=
  ⟨by decide, (onChar_line_wrapping (initialScanner []) (-1) (-1)).2.2.1 (by decide)⟩

theorem owLE_iff (a b : OffsetWrapper) : owLE a b ↔ a.offset ≤ b.offset := by
  unfold owLE compareOffsets
  omega

theorem offsetPred_iff (c : Int) (w : OffsetWrapper) :
    offsetPred c w = true ↔ w.offset ≤ c := by
  simp only [offsetPred, compareOffsets, decide_eq_true_eq]
  omega

theorem lcLE_lineStep (wrap : Bool) (lc : LineChar) :
    lcLE lc (if wrap then (lc.1 + 1, 1) else (lc.1, lc.2 + 1)) := by
  cases wrap
  · exact Or.inr ⟨rfl, Nat.le_succ _⟩
  · exact Or.inl (Nat.lt_succ_self _)

theorem mem_dropWhile_gt (c : Int) :
    ∀ l : List OffsetWrapper, l.Pairwise owLE →
      ∀ w ∈ l.dropWhile (offsetPred c), c < w.offset := by
  intro l
  induction l with
  | nil => intro _ w hw; simp at hw
  | cons x xs ih =>
    intro hpw w hw
    rw [List.dropWhile_cons] at hw
    by_cases hx : offsetPred c x = true
    · rw [if_pos hx] at hw
      exact ih hpw.of_cons w hw
    · rw [if_neg hx] at hw
      have hxgt : c < x.offset := by
        have := (not_iff_not.mpr (offsetPred_iff c x)).mp hx
        omega
      rcases List.mem_cons.mp hw with rfl | hw'
      · exact hxgt
      · have hle := (owLE_iff x w).mp (List.rel_of_pairwise_cons hpw hw')
        omega

/-- The loop invariant of the scan with respect to the original request
list: the pending offset queue is sorted; bound line/chars never exceed
the cursor and are monotone in the bound offset; bound offsets sit
strictly below all pending ones; every wrapper carries its original
request; and every offset request is held by exactly the wrapper at its
return index, in one of the two lists. -/
structure ScanInv (positions : List RawPosition) (s : Scanner) : Prop where
  sortedPending : s.pendingOffsets.Pairwise owLE
  boundLe : ∀ w ∈ s.boundOffsets, lcLE w.lineChar s.currLineChar
  boundMono : ∀ w1 ∈ s.boundOffsets, ∀ w2 ∈ s.boundOffsets,
    w1.offset ≤ w2.offset → lcLE w1.lineChar w2.lineChar
  boundLtPending : ∀ w1 ∈ s.boundOffsets, ∀ w2 ∈ s.pendingOffsets, w1.offset < w2.offset
  pendingReq : ∀ w ∈ s.pendingOffsets,
    positions[w.returnIndex]? = some (RawPosition.offset w.offset)
  boundReq : ∀ w ∈ s.boundOffsets,
    positions[w.returnIndex]? = some (RawPosition.offset w.offset)
  pendingLCReq : ∀ w ∈ s.pendingLCs,
    ∃ lc, positions[w.returnIndex]? = some (RawPosition.lineChar lc)
  boundLCReq : ∀ w ∈ s.boundLCs,
    ∃ lc, positions[w.returnIndex]? = some (RawPosition.lineChar lc)
  covered : ∀ i (o : Int), positions[i]? = some (RawPosition.offset o) →
    (∃ w ∈ s.pendingOffsets, w.returnIndex = i ∧ w.offset = o) ∨
    (∃ w ∈ s.boundOffsets, w.returnIndex = i ∧ w.offset = o)

theorem scanInv_bindStep {positions : List RawPosition} {s : Scanner}
    (h : ScanInv positions s) : ScanInv positions (bindStep s) := by
  have hsplit : s.pendingOffsets.span (offsetPred s.currOffset) =
      (s.pendingOffsets.takeWhile (offsetPred s.currOffset),
       s.pendingOffsets.dropWhile (offsetPred s.currOffset)) :=
    List.span_eq_take_drop _ _
  have hlsplit : s.pendingLCs.span (lcPred s.currLineChar) =
      (s.pendingLCs.takeWhile (lcPred s.currLineChar),
       s.pendingLCs.dropWhile (lcPred s.currLineChar)) :=
    List.span_eq_take_drop _ _
  have htake : ∀ w ∈ s.pendingOffsets.takeWhile (offsetPred s.currOffset),
      w ∈ s.pendingOffsets ∧ w.offset ≤ s.currOffset := by
    intro w hw
    exact ⟨(List.takeWhile_sublist _).mem hw, (offsetPred_iff _ _).mp (List.mem_takeWhile_imp hw)⟩
  have hdropmem : ∀ w ∈ s.pendingOffsets.dropWhile (offsetPred s.currOffset),
      w ∈ s.pendingOffsets := fun w hw => (List.dropWhile_sublist _).mem hw
  have hdropgt : ∀ w ∈ s.pendingOffsets.dropWhile (offsetPred s.currOffset),
      s.currOffset < w.offset := mem_dropWhile_gt _ _ h.sortedPending
  unfold bindStep
  rw [hsplit, hlsplit]
  refine ⟨?_, ?_, ?_, ?_, ?_, ?_, ?_, ?_, ?_⟩
  · exact List.Pairwise.sublist (List.dropWhile_sublist _) h.sortedPending
  · intro w hw
    rcases List.mem_append.mp hw with hw | hw
    · exact h.boundLe w hw
    · obtain ⟨t, _, rfl⟩ := List.mem_map.mp hw
      exact lcLE_refl _
  · intro w1 hw1 w2 hw2 hle
    rcases List.mem_append.mp hw1 with hw1 | hw1 <;>
      rcases List.mem_append.mp hw2 with hw2 | hw2
    · exact h.boundMono w1 hw1 w2 hw2 hle
    · obtain ⟨t, _, rfl⟩ := List.mem_map.mp hw2
      exact h.boundLe w1 hw1
    · obtain ⟨t, ht, rfl⟩ := List.mem_map.mp hw1
      have := h.boundLtPending w2 hw2 t (htake t ht).1
      simp only at hle
      omega
    · obtain ⟨t1, _, rfl⟩ := List.mem_map.mp hw1
      obtain ⟨t2, _, rfl⟩ := List.mem_map.mp hw2
      exact lcLE_refl _
  · intro w1 hw1 w2 hw2
    rcases List.mem_append.mp hw1 with hw1 | hw1
    · exact h.boundLtPending w1 hw1 w2 (hdropmem w2 hw2)
    · obtain ⟨t, ht, rfl⟩ := List.mem_map.mp hw1
      have h1 := (htake t ht).2
      have h2 := hdropgt w2 hw2
      simp only
      omega
  · intro w hw
    exact h.pendingReq w (hdropmem w hw)
  · intro w hw
    rcases List.mem_append.mp hw with hw | hw
    · exact h.boundReq w hw
    · obtain ⟨t, ht, rfl⟩ := List.mem_map.mp hw
      exact h.pendingReq t (htake t ht).1
  · intro w hw
    exact h.pendingLCReq w ((List.dropWhile_sublist _).mem hw)
  · intro w hw
    rcases List.mem_append.mp hw with hw | hw
    · exact h.boundLCReq w hw
    · obtain ⟨t, ht, rfl⟩ := List.mem_map.mp hw
      exact h.pendingLCReq t ((List.takeWhile_sublist _).mem ht)
  · intro i o hio
    rcases h.covered i o hio with ⟨w, hw, hri, ho⟩ | ⟨w, hw, hri, ho⟩
    · rw [← List.takeWhile_append_dropWhile (p := offsetPred s.currOffset)
          (l := s.pendingOffsets)] at hw
      rcases List.mem_append.mp hw with hw | hw
      · refine Or.inr ⟨⟨w.returnIndex, w.offset, s.currLineChar⟩, ?_, hri, ho⟩
        exact List.mem_append.mpr (Or.inr (List.mem_map.mpr ⟨w, hw, rfl⟩))
      · exact Or.inl ⟨w, hw, hri, ho⟩
    · exact Or.inr ⟨w, List.mem_append.mpr (Or.inl hw), hri, ho⟩

theorem scanInv_onChar {positions : List RawPosition} (ch nextCh : Int) {s : Scanner}
    (h : ScanInv positions s) : ScanInv positions (onChar ch nextCh s) := by
  have hb : ScanInv positions
      (if isTrivia ch (switchStep ch nextCh s.currOffset s.core).core.state then s
       else bindStep s) := by
    split
    · exact h
    · exact scanInv_bindStep h
  have hblc : (if isTrivia ch (switchStep ch nextCh s.currOffset s.core).core.state then s
      else bindStep s).currLineChar = s.currLineChar := by
    split <;> rfl
  refine ⟨hb.sortedPending, ?_, hb.boundMono, hb.boundLtPending, hb.pendingReq,
    hb.boundReq, hb.pendingLCReq, hb.boundLCReq, hb.covered⟩
  intro w hw
  have h1 := hb.boundLe w hw
  rw [hblc] at h1
  exact lcLE_trans h1 (lcLE_lineStep _ _)

theorem scanInv_runScanAux {positions : List RawPosition} :
    ∀ (rest : List Int) (prevCh : Int) (s : Scanner),
      ScanInv positions s → ScanInv positions (runScanAux prevCh rest s) := by
  intro rest
  induction rest with
  | nil => intro prevCh s h; exact scanInv_onChar _ _ h
  | cons c cs ih => intro prevCh s h; exact ih c _ (scanInv_onChar _ _ h)

theorem scanInv_runScan {positions : List RawPosition} (text : List Int) {s : Scanner}
    (h : ScanInv positions s) : ScanInv positions (runScan text s) := by
  cases text with
  | nil => exact h
  | cons c cs => exact scanInv_runScanAux cs c s h

theorem offsetWrappersOf_req :
    ∀ (ps : List RawPosition) (k : Nat) (w : OffsetWrapper),
      w ∈ offsetWrappersOf ps k →
      k ≤ w.returnIndex ∧ ps[w.returnIndex - k]? = some (RawPosition.offset w.offset) := by
  intro ps
  induction ps with
  | nil => intro k w hw; simp [offsetWrappersOf] at hw
  | cons p rest ih =>
    intro k w hw
    cases p with
    | offset o =>
      rw [offsetWrappersOf] at hw
      rcases List.mem_cons.mp hw with rfl | hw'
      · exact ⟨le_refl _, by simp⟩
      · obtain ⟨hk, hget⟩ := ih (k + 1) w hw'
        refine ⟨by omega, ?_⟩
        have : w.returnIndex - k = (w.returnIndex - (k + 1)) + 1 := by omega
        rw [this, List.getElem?_cons_succ]
        exact hget
    | lineChar lc =>
      rw [offsetWrappersOf] at hw
      obtain ⟨hk, hget⟩ := ih (k + 1) w hw
      refine ⟨by omega, ?_⟩
      have : w.returnIndex - k = (w.returnIndex - (k + 1)) + 1 := by omega
      rw [this, List.getElem?_cons_succ]
      exact hget

theorem lineCharWrappersOf_req :
    ∀ (ps : List RawPosition) (k : Nat) (w : LineCharWrapper),
      w ∈ lineCharWrappersOf ps k →
      k ≤ w.returnIndex ∧ ps[w.returnIndex - k]? = some (RawPosition.lineChar w.lineChar) := by
  intro ps
  induction ps with
  | nil => intro k w hw; simp [lineCharWrappersOf] at hw
  | cons p rest ih =>
    intro k w hw
    cases p with
    | offset o =>
      rw [lineCharWrappersOf] at hw
      obtain ⟨hk, hget⟩ := ih (k + 1) w hw
      refine ⟨by omega, ?_⟩
      have : w.returnIndex - k = (w.returnIndex - (k + 1)) + 1 := by omega
      rw [this, List.getElem?_cons_succ]
      exact hget
    | lineChar lc =>
      rw [lineCharWrappersOf] at hw
      rcases List.mem_cons.mp hw with rfl | hw'
      · exact ⟨le_refl _, by simp⟩
      · obtain ⟨hk, hget⟩ := ih (k + 1) w hw'
        refine ⟨by omega, ?_⟩
        have : w.returnIndex - k = (w.returnIndex - (k + 1)) + 1 := by omega
        rw [this, List.getElem?_cons_succ]
        exact hget

theorem offsetWrappersOf_covered :
    ∀ (ps : List RawPosition) (k j : Nat) (o : Int),
      ps[j]? = some (RawPosition.offset o) →
      ∃ w ∈ offsetWrappersOf ps k, w.returnIndex = k + j ∧ w.offset = o := by
  intro ps
  induction ps with
  | nil => intro k j o h; simp at h
  | cons p rest ih =>
    intro k j o h
    cases j with
    | zero =>
      rw [List.getElem?_cons_zero] at h
      obtain rfl : p = RawPosition.offset o := by injection h
      exact ⟨{ returnIndex := k, offset := o }, by rw [offsetWrappersOf]; exact List.mem_cons_self _ _, by simp, rfl⟩
    | succ j' =>
      rw [List.getElem?_cons_succ] at h
      obtain ⟨w, hw, hri, ho⟩ := ih (k + 1) j' o h
      cases p with
      | offset o' =>
        exact ⟨w, by rw [offsetWrappersOf]; exact List.mem_cons_of_mem _ hw, by omega, ho⟩
      | lineChar lc =>
        exact ⟨w, by rw [offsetWrappersOf]; exact hw, by omega, ho⟩

theorem scanInv_initial (positions : List RawPosition) :
    ScanInv positions (initialScanner positions) := by
  have hperm := List.perm_insertionSort owLE (offsetWrappersOf positions 0)
  have hpermLC := List.perm_insertionSort lcwLE (lineCharWrappersOf positions 0)
  refine ⟨?_, ?_, ?_, ?_, ?_, ?_, ?_, ?_, ?_⟩
  · exact List.sorted_insertionSort owLE (offsetWrappersOf positions 0)
  · intro w hw; simp [initialScanner] at hw
  · intro w1 hw1; simp [initialScanner] at hw1
  · intro w1 hw1; simp [initialScanner] at hw1
  · intro w hw
    have hw' : w ∈ offsetWrappersOf positions 0 := hperm.mem_iff.mp hw
    have := offsetWrappersOf_req positions 0 w hw'
    simpa using this.2
  · intro w hw; simp [initialScanner] at hw
  · intro w hw
    have hw' : w ∈ lineCharWrappersOf positions 0 := hpermLC.mem_iff.mp hw
    have := lineCharWrappersOf_req positions 0 w hw'
    exact ⟨w.lineChar, by simpa using this.2⟩
  · intro w hw; simp [initialScanner] at hw
  · intro i o hio
    obtain ⟨w, hw, hri, ho⟩ := offsetWrappersOf_covered positions 0 i o hio
    exact Or.inl ⟨w, hperm.mem_iff.mpr hw, by omega, ho⟩

theorem resultAt_spec {positions : List RawPosition} {s : Scanner}
    (h : ScanInv positions s) (i : Nat) (a : Int)
    (hi : positions[i]? = some (RawPosition.offset a)) :
    (∃ w ∈ s.boundOffsets, w.offset = a ∧ resultAt s i = w.lineChar) ∨
    (resultAt s i = s.currLineChar ∧ ∃ w ∈ s.pendingOffsets, w.offset = a) := by
  rcases hf : s.boundOffsets.find? (fun w => w.returnIndex == i) with _ | w
  · have hnone : ∀ w ∈ s.boundOffsets, w.returnIndex ≠ i := by
      intro w hw
      have := List.find?_eq_none.mp hf w hw
      simpa using this
    rcases hf2 : s.boundLCs.find? (fun w => w.returnIndex == i) with _ | w2
    · right
      refine ⟨?_, ?_⟩
      · unfold resultAt
        rw [hf, hf2]
      · rcases h.covered i a hi with ⟨w, hw, _, ho⟩ | ⟨w, hw, hri, _⟩
        · exact ⟨w, hw, ho⟩
        · exact absurd hri (hnone w hw)
    · exfalso
      have hw2ri : w2.returnIndex = i := by simpa using List.find?_some hf2
      obtain ⟨lc, hlc⟩ := h.boundLCReq w2 (List.mem_of_find?_eq_some hf2)
      rw [hw2ri, hi] at hlc
      exact absurd hlc (by simp)
  · left
    have hwri : w.returnIndex = i := by simpa using List.find?_some hf
    have hmem := List.mem_of_find?_eq_some hf
    have hreq := h.boundReq w hmem
    rw [hwri, hi] at hreq
    have ho : a = w.offset := by
      have := Option.some.inj hreq
      injection this
    refine ⟨w, hmem, ho.symm, ?_⟩
    unfold resultAt
    rw [hf]

/-- Claim C7: normalized positions are monotone in the raw offsets — for
every source text and request list, if two offset requests satisfy
`a ≤ b`, the line/char bound to the first is lexicographically `≤` the
line/char bound to the second. -/
theorem runNormalize_offset_monotone (text : List Int) (positions : List RawPosition)
    (i j : Nat) (a b : Int)
    (hi : positions[i]? = some (RawPosition.offset a))
    (hj : positions[j]? = some (RawPosition.offset b))
    (hab : a ≤ b) :
    lcLE ((runNormalize text positions).getD i (1, 1))
      ((runNormalize text positions).getD j (1, 1)) := by
  have hInv : ScanInv positions (runScan text (initialScanner positions)) :=
    scanInv_runScan text (scanInv_initial positions)
  have hilen : i < positions.length := (List.getElem?_eq_some_iff.mp hi).1
  have hjlen : j < positions.length := (List.getElem?_eq_some_iff.mp hj).1
  have hgetD : ∀ k, k < positions.length →
      (runNormalize text positions).getD k (1, 1) =
        resultAt (runScan text (initialScanner positions)) k := by
    intro k hk
    unfold runNormalize scanResult
    rw [List.getD_eq_getElem?_getD, List.getElem?_map, List.getElem?_range hk]
    rfl
  rw [hgetD i hilen, hgetD j hjlen]
  rcases resultAt_spec hInv i a hi with ⟨w1, hw1, ho1, he1⟩ | ⟨he1, w1, hw1, ho1⟩ <;>
    rcases resultAt_spec hInv j b hj with ⟨w2, hw2, ho2, he2⟩ | ⟨he2, w2, hw2, ho2⟩
  · rw [he1, he2]
    exact hInv.boundMono w1 hw1 w2 hw2 (by omega)
  · rw [he1, he2]
    exact hInv.boundLe w1 hw1
  · exfalso
    have := hInv.boundLtPending w2 hw2 w1 hw1
    omega
  · rw [he1, he2]
    exact lcLE_refl _

/-- Witness for C7 on the file `"a b"` with requests `[0, 2]`. -/
theorem runNormalize_offset_monotone_witness :
    lcLE ((runNormalize [97, 32, 98] [RawPosition.offset 0, RawPosition.offset 2]).getD 0 (1, 1))
      ((runNormalize [97, 32, 98] [RawPosition.offset 0, RawPosition.offset 2]).getD 1 (1, 1)) :=
  runNormalize_offset_monotone [97, 32, 98] [RawPosition.offset 0, RawPosition.offset 2]
    0 1 0 2 (by decide) (by decide) (by decide)

end TraceAnalyze
